import Mathlib

/-!
Verification development for `python/tvm/relax/training/utils.py`:
the `AppendLoss` function-splicing pass and the `register_te_gradient`
registration mechanism.

The Python file is a thin wrapper: the body of the `AppendLoss` pass lives in
the native backend (`_ffi_api.AppendLoss`) and the global function registry
lives in `tvm._ffi.registry`; neither is present in the excerpt.  Those parts
are therefore modelled from the specification's own description of the data
model and the splicing algorithm, while the `handler` closure and the
decorator logic of `register_te_gradient` are embedded directly from the
Python source.
-/

namespace Relax

/-- Modelled from the spec: a static type/shape annotation carried by a
variable.  A scalar is a tensor of rank 0, i.e. an empty shape. -/
structure VarAnn where
  dtype : String
  shape : List Nat
deriving DecidableEq, Repr

/-- Modelled from the spec: an immutable named reference with a stable opaque
identifier (`id`) distinct from its display name; identity matters for
substitution, renaming updates only the display name. -/
structure Var where
  id : Nat
  name : String
  ann : VarAnn
deriving DecidableEq, Repr

/-- Modelled from the spec: one variable binding `var := op(args)` of a
dataflow block. -/
structure Binding where
  var : Var
  op : String
  args : List Var
deriving DecidableEq, Repr

/-- Modelled from the spec: an ordered sequence of bindings followed by the
declared output variables. -/
structure DataflowBlock where
  bindings : List Binding
  outputs : List Var
deriving DecidableEq, Repr

/-- Modelled from the spec: a return expression is a single Var or a
fixed-order tuple of Vars. -/
inductive RetExpr where
  | single (v : Var)
  | tuple (vs : List Var)
deriving DecidableEq, Repr

/-- Modelled from the spec: a function with ordered typed formal parameters,
a body that is a list of dataflow blocks (restricted to exactly one by the
splicer's preconditions), and a return expression. -/
structure Function where
  params : List Var
  blocks : List DataflowBlock
  ret : RetExpr
deriving DecidableEq, Repr

/-- Modelled from the spec: an enclosing program is an ordered collection of
named functions. -/
abbrev Module := List (String × Function)

/-- Modelled from the spec: the named validation failures of the splicer,
each identifying which restriction failed and on which function. -/
inductive SpliceError where
  | functionNotFound (fn : String)
  | blockCountNotOne (fn : String) (count : Nat)
  | lossReturnNotScalarVar
  | tooFewBackboneOutputs (got : Nat) (want : Nat)
  | lossArityMismatch (got : Nat) (want : Nat)
  | nameCollision (nm : String)
deriving DecidableEq, Repr

/-- The list of returned variables: a single Var gives a singleton list, a
tuple gives its element list. -/
def retList : RetExpr → List Var
  | .single v => [v]
  | .tuple vs => vs

/-- The single dataflow block of a function validated to have exactly one. -/
def block1 (f : Function) : DataflowBlock := f.blocks.headD ⟨[], []⟩

/-- The largest variable identifier occurring in a list of variables. -/
def maxId (vs : List Var) : Nat := vs.foldr (fun v m => max v.id m) 0

/-- All variables occurring anywhere in a function. -/
def Function.allVars (f : Function) : List Var :=
  f.params ++
    (f.blocks.flatMap fun b => (b.bindings.flatMap fun bd => bd.var :: bd.args) ++ b.outputs) ++
    retList f.ret

/-- First identifier guaranteed fresh for both input functions; newly declared
parameter variables are allocated from here. -/
def freshBase (backbone loss : Function) : Nat :=
  maxId (backbone.allVars ++ loss.allVars) + 1

/-- The length of the longest string in the list. -/
def maxLen (used : List String) : Nat := used.foldr (fun s m => max s.length m) 0

/-- A name not occurring in `used`: the base name when it does not collide,
otherwise the base name padded until it is longer than every used name. -/
def freshName (used : List String) (n : String) : String :=
  if n ∈ used then n ++ String.mk (List.replicate (maxLen used + 1) '_') else n

/-- Left-to-right disambiguation of a list of names against an accumulated
set of used names: each output name avoids both the initial set and all
previously produced names. -/
def disambiguate : List String → List String → List String
  | _, [] => []
  | used, n :: ns =>
    let n2 := freshName used n
    n2 :: disambiguate (n2 :: used) ns

/-- The newly declared parameters of the spliced function: loss's formal
parameters past the first `k`, in loss's original order, with name and
type/shape annotation preserved and a fresh identity. -/
def newParams (backbone loss : Function) (k : Nat) : List Var :=
  (loss.params.drop k).map fun p => { p with id := p.id + freshBase backbone loss }

/-- Substitution pairs from loss's formal parameters: the first `k` map to the
backbone's prediction outputs, the rest map to the newly declared
parameters. -/
def substPairs (backbone loss : Function) (k : Nat) : List (Nat × Var) :=
  List.zipWith (fun p w => (p.id, w)) loss.params
    ((retList backbone.ret).take k ++ newParams backbone loss k)

/-- The variables bound by the loss function's single dataflow block. -/
def lossBoundVars (loss : Function) : List Var := (block1 loss).bindings.map Binding.var

/-- Final display names for loss's bound variables inside the merged block:
disambiguated against the names bound in backbone's block. -/
def finalNames (backbone loss : Function) : List String :=
  disambiguate ((block1 backbone).bindings.map fun b => b.var.name)
    ((block1 loss).bindings.map fun b => b.var.name)

/-- Loss's bound variables after renaming: identity (id) preserved, display
name replaced by the disambiguated one. -/
def renamedVars (backbone loss : Function) : List Var :=
  List.zipWith (fun v n => { v with name := n }) (lossBoundVars loss)
    (finalNames backbone loss)

/-- Renaming pairs for loss's bound variables, keyed by identity. -/
def renPairs (backbone loss : Function) : List (Nat × Var) :=
  List.zipWith (fun v rv => (v.id, rv)) (lossBoundVars loss) (renamedVars backbone loss)

/-- Rewrite one variable reference of loss's block: a bound variable becomes
its renamed copy, a formal parameter becomes its substitution target, and
anything else is unchanged. -/
def rewriteVar (backbone loss : Function) (k : Nat) (v : Var) : Var :=
  match List.lookup v.id (renPairs backbone loss) with
  | some w => w
  | none =>
    match List.lookup v.id (substPairs backbone loss k) with
    | some w => w
    | none => v

/-- Loss's bindings as they appear in the merged block: bound variables
renamed, every argument rewritten per the substitution and renaming maps. -/
def newLossBindings (backbone loss : Function) (k : Nat) : List Binding :=
  List.zipWith
    (fun (b : Binding) (rv : Var) =>
      { var := rv, op := b.op, args := b.args.map (rewriteVar backbone loss k) })
    (block1 loss).bindings (renamedVars backbone loss)

/-- The backbone's carried outputs: return values past the first `k`, not
consumed by loss and forwarded unchanged. -/
def carried (backbone : Function) (k : Nat) : List Var := (retList backbone.ret).drop k

/-- The scalar loss value inside the merged block: loss's returned variable
after rewriting. -/
def lossValVar (backbone loss : Function) (k : Nat) : Var :=
  match loss.ret with
  | .single v => rewriteVar backbone loss k v
  | .tuple _ => ⟨0, "", ⟨"", []⟩⟩

/-- Modelled from the spec: the core of the native `AppendLoss` pass, the
construction of the spliced function from validated inputs — backbone's
bindings followed by loss's rewritten bindings in one block, outputs the loss
scalar followed by the carried outputs, parameters backbone's followed by the
newly declared ones, returning a single Var when there are no carried
outputs and a tuple otherwise. -/
def mkSplice (backbone loss : Function) (k : Nat) : Function :=
  { params := backbone.params ++ newParams backbone loss k
    blocks := [{ bindings := (block1 backbone).bindings ++ newLossBindings backbone loss k
                 outputs := lossValVar backbone loss k :: carried backbone k }]
    ret :=
      match carried backbone k with
      | [] => .single (lossValVar backbone loss k)
      | c :: cs => .tuple (lossValVar backbone loss k :: c :: cs) }

/-- Loss's return expression when it is a single scalar (rank 0) Var. -/
def scalarSingleRet : RetExpr → Option Var
  | .single v => if v.ann.shape = [] then some v else none
  | .tuple _ => none

/-- Modelled from the spec: the validation and splice of the native
`AppendLoss` pass — check the block counts, the scalar loss return, and the
arity preconditions, then build the spliced function. -/
def splice (backbone loss : Function) (k : Nat) : Except SpliceError Function :=
  if backbone.blocks.length ≠ 1 then
    .error (.blockCountNotOne "backbone" backbone.blocks.length)
  else if loss.blocks.length ≠ 1 then
    .error (.blockCountNotOne "loss" loss.blocks.length)
  else
    match scalarSingleRet loss.ret with
    | none => .error .lossReturnNotScalarVar
    | some _ =>
      if (retList backbone.ret).length < k then
        .error (.tooFewBackboneOutputs (retList backbone.ret).length k)
      else if loss.params.length < k then
        .error (.lossArityMismatch loss.params.length k)
      else
        .ok (mkSplice backbone loss k)

/-- Modelled from the spec: the whole `AppendLoss` pass over a module — look
up the backbone by name, splice, and insert the result alongside the backbone
under `new_func_name` (default `func_name ++ "_loss"`), failing on a name
collision. -/
def appendLoss (func_name : String) (loss : Function) (k : Nat)
    (new_func_name : Option String) (mod : Module) : Except SpliceError Module :=
  match List.lookup func_name mod with
  | none => .error (.functionNotFound func_name)
  | some backbone =>
    match splice backbone loss k with
    | .error e => .error e
    | .ok f =>
      if new_func_name.getD (func_name ++ "_loss") ∈ mod.map Prod.fst then
        .error (.nameCollision (new_func_name.getD (func_name ++ "_loss")))
      else .ok (mod ++ [(new_func_name.getD (func_name ++ "_loss"), f)])

/-- Example variable `x` from the docstring example. -/
def exX : Var := ⟨1, "x", ⟨"float32", [2, 4]⟩⟩

/-- Example variable `y` from the docstring example. -/
def exY : Var := ⟨2, "y", ⟨"float32", [2, 4]⟩⟩

/-- Example bound variable `out` from the docstring example. -/
def exOut : Var := ⟨3, "out", ⟨"float32", [2, 4]⟩⟩

/-- Example parameter `predictions` of the loss function. -/
def exPred : Var := ⟨4, "predictions", ⟨"float32", [2, 4]⟩⟩

/-- Example parameter `labels` of the loss function. -/
def exLabels : Var := ⟨5, "labels", ⟨"float32", [2, 4]⟩⟩

/-- Example bound variable `lv` of the loss function. -/
def exLv : Var := ⟨6, "lv", ⟨"float32", [2, 4]⟩⟩

/-- Example bound variable `lv1` of the loss function. -/
def exLv1 : Var := ⟨7, "lv1", ⟨"float32", [2, 4]⟩⟩

/-- Example bound scalar variable `gv` of the loss function. -/
def exGv : Var := ⟨8, "gv", ⟨"float32", []⟩⟩

/-- The backbone `predict` of the docstring example: one block binding
`out = add(x, y)`, returning `out`. -/
def exPredict : Function :=
  { params := [exX, exY]
    blocks := [⟨[⟨exOut, "add", [exX, exY]⟩], [exOut]⟩]
    ret := .single exOut }

/-- The loss function of the docstring example: `lv = subtract(predictions,
labels); lv1 = multiply(lv, lv); gv = sum(lv1)`, returning the scalar `gv`. -/
def exLoss : Function :=
  { params := [exPred, exLabels]
    blocks :=
      [⟨[⟨exLv, "subtract", [exPred, exLabels]⟩, ⟨exLv1, "multiply", [exLv, exLv]⟩,
          ⟨exGv, "sum", [exLv1]⟩], [exGv]⟩]
    ret := .single exGv }

/-- A malformed loss returning a rank-1 (non-scalar) variable. -/
def exBadGv : Var := ⟨8, "gv", ⟨"float32", [2]⟩⟩

/-- A malformed loss function: same bindings but with a rank-1 return. -/
def exBadLoss : Function :=
  { params := [exPred, exLabels]
    blocks :=
      [⟨[⟨exLv, "subtract", [exPred, exLabels]⟩, ⟨exLv1, "multiply", [exLv, exLv]⟩,
          ⟨exBadGv, "sum", [exLv1]⟩], [exBadGv]⟩]
    ret := .single exBadGv }

/-- The module of the docstring example, holding only `predict`. -/
def exModule : Module := [("predict", exPredict)]

/-- The spliced function of the docstring example. -/
def exResult : Function := mkSplice exPredict exLoss 1

end Relax

namespace TeGrad

/-- One binding emitted into a block-building context by `emit_te`: the bound
variable, the tensor-expression function invoked, its positional arguments in
order, its keyword options, and the primfunc name hint. -/
structure Emitted where
  var : Nat
  func : String
  posArgs : List Nat
  kwargs : List (String × String)
  hint : String
deriving DecidableEq, Repr

/-- Modelled from the spec: the state of the block-building facility
(`BlockBuilder`), an ordered list of emitted bindings plus a counter for the
next variable to bind. -/
structure BBState where
  emitted : List Emitted
  nextVarId : Nat
deriving DecidableEq, Repr

/-- Modelled from the spec: `BlockBuilder.emit_te`, which is not part of the
excerpt — append a binding computed by emitting a named tensor-expression
kernel given positional arguments and keyword-style attributes, and return
the new Var bound to the emitted result. -/
def emit_te (ctx : BBState) (func : String) (posArgs : List Nat)
    (kwargs : List (String × String)) (hint : String) : Nat × BBState :=
  (ctx.nextVarId,
    { emitted := ctx.emitted ++ [⟨ctx.nextVarId, func, posArgs, kwargs, hint⟩]
      nextVarId := ctx.nextVarId + 1 })

/-- An argument of a `call_tir_with_grad` call node: a plain variable or a
tuple of variables (the forward call packs its arguments in a tuple at
position 1). -/
inductive RArg where
  | varArg (v : Nat)
  | tupleArg (fields : List Nat)
deriving DecidableEq, Repr

/-- Python iterable unpacking (the `*` in `*call_tir_with_grad.args[1]`):
iterating a tuple expression yields its fields. -/
def unpackArg : RArg → List Nat
  | .varArg v => [v]
  | .tupleArg fs => fs

/-- The attributes of a `call_tir_with_grad` node used by the handler. -/
structure GradAttrs where
  te_grad_kwargs : List (String × String)
deriving DecidableEq, Repr

/-- A `call_tir_with_grad` call expression: its argument list and its
attributes. -/
structure Call where
  args : List RArg
  attrs : GradAttrs
deriving DecidableEq, Repr

/-- The `handler` closure of `register_te_gradient`, embedded from the
source: it calls `ctx.emit_te` on the wrapped function with the output
gradient first, then the forward call's packed arguments unpacked, the call's
`te_grad_kwargs` forwarded verbatim, and `te_grad_name` as the primfunc name
hint; it returns the variable the context binds. -/
def handler (te_grad_name func : String) (orig_var : Nat) (call_tir_with_grad : Call)
    (output_grad : Nat) (ctx : BBState) : Nat × BBState :=
  emit_te ctx func
    (output_grad :: unpackArg (call_tir_with_grad.args.getD 1 (.tupleArg [])))
    call_tir_with_grad.attrs.te_grad_kwargs te_grad_name

/-- The data captured by a stored handler closure: the registered gradient
name and the wrapped te gradient function (callables are identified by
name here). -/
structure Handler where
  gradName : String
  func : String
deriving DecidableEq, Repr

/-- Run a stored handler: apply `handler` to its captured values. -/
def runHandler (h : Handler) : Nat → Call → Nat → BBState → Nat × BBState :=
  handler h.gradName h.func

/-- Modelled from the spec: the process-wide string-keyed function registry,
most recent registration first. -/
abbrev Registry := List (String × Handler)

/-- Modelled from the spec: `tvm._ffi.registry.register_func` — store a
handler under a key; re-registering the same key overwrites the previous
handler in the sense that a lookup finds the most recent one
(last-write-wins). -/
def register_func (key : String) (h : Handler) (reg : Registry) : Registry :=
  (key, h) :: reg

/-- The inner `register` closure of `register_te_gradient`, embedded from the
source: register the handler under the namespaced key
`"tvm.relax.te_grad._register." ++ te_grad_name` and return the callable
unchanged. -/
def register (te_grad_name : String) (func : String) (reg : Registry) :
    String × Registry :=
  (func, register_func ("tvm.relax.te_grad._register." ++ te_grad_name) ⟨te_grad_name, func⟩ reg)

/-- `register_te_gradient`, embedded from the source: with a callable it
registers directly and returns the pair (returned callable, new registry);
without one it returns the `register` closure to be used as a decorator. -/
def register_te_gradient (te_grad_name : String) (te_grad_func : Option String)
    (reg : Registry) : Sum (String × Registry) (String → Registry → String × Registry) :=
  match te_grad_func with
  | some f => .inl (register te_grad_name f reg)
  | none => .inr (register te_grad_name)

/-- An example `call_tir_with_grad` call: the callee at position 0, the
packed forward arguments at position 1, and a keyword attribute. -/
def exCall : Call := ⟨[.varArg 0, .tupleArg [1, 2]], ⟨[("axis", "0")]⟩⟩

end TeGrad

namespace Relax

theorem length_le_maxLen {s : String} {used : List String} (h : s ∈ used) :
    s.length ≤ maxLen used := by
  induction used with
  | nil => cases h
  | cons a l ih =>
    rcases List.mem_cons.mp h with rfl | h
    · simp [maxLen]
    · simp only [maxLen, List.foldr_cons]
      exact le_trans (ih h) (le_max_right _ _)

theorem freshName_not_mem (used : List String) (n : String) : freshName used n ∉ used := by
  unfold freshName
  split
  · intro hmem
    have hlen := length_le_maxLen hmem
    rw [String.length_append] at hlen
    have hpad : (String.mk (List.replicate (maxLen used + 1) '_')).length = maxLen used + 1 := by
      simp [String.length]
    omega
  · assumption

theorem disambiguate_length (ns : List String) :
    ∀ used, (disambiguate used ns).length = ns.length := by
  induction ns with
  | nil => intro used; simp [disambiguate]
  | cons n ns ih => intro used; simp [disambiguate, ih]

theorem disambiguate_nodup (ns : List String) :
    ∀ used, used.Nodup → (used ++ disambiguate used ns).Nodup := by
  induction ns with
  | nil => intro used h; simpa [disambiguate]
  | cons n ns ih =>
    intro used h
    have hfresh : freshName used n ∉ used := freshName_not_mem used n
    have h2 : (freshName used n :: used).Nodup := List.nodup_cons.mpr ⟨hfresh, h⟩
    have h3 := ih (freshName used n :: used) h2
    simp only [disambiguate]
    exact List.perm_middle.symm.nodup h3

theorem disambiguate_eq_of_disjoint (ns : List String) :
    ∀ used, (∀ s ∈ ns, s ∉ used) → ns.Nodup → disambiguate used ns = ns := by
  induction ns with
  | nil => intro used _ _; simp [disambiguate]
  | cons n ns ih =>
    intro used hdisj hnd
    have hn : n ∉ used := hdisj n (List.mem_cons_self n ns)
    have hfn : freshName used n = n := by simp [freshName, hn]
    have hnd2 := List.nodup_cons.mp hnd
    have hdisj2 : ∀ s ∈ ns, s ∉ n :: used := by
      intro s hs
      simp only [List.mem_cons, not_or]
      exact ⟨fun he => hnd2.1 (he ▸ hs), hdisj s (List.mem_cons_of_mem _ hs)⟩
    simp only [disambiguate, hfn]
    rw [ih (n :: used) hdisj2 hnd2.2]

theorem map_var_zipWith (g : Var → Var) (bs : List Binding) :
    ∀ rvs : List Var, bs.length = rvs.length →
      (List.zipWith
        (fun (b : Binding) (rv : Var) =>
          ({ var := rv, op := b.op, args := b.args.map g } : Binding))
        bs rvs).map Binding.var = rvs := by
  induction bs with
  | nil => intro rvs h; cases rvs <;> simp_all
  | cons b bs ih =>
    intro rvs h
    cases rvs with
    | nil => simp at h
    | cons rv rvs => simp_all

theorem map_name_zipWith (vs : List Var) :
    ∀ ns : List String, vs.length = ns.length →
      (List.zipWith (fun (v : Var) (n : String) => { v with name := n }) vs ns).map
        Var.name = ns := by
  induction vs with
  | nil => intro ns h; cases ns <;> simp_all
  | cons v vs ih =>
    intro ns h
    cases ns with
    | nil => simp at h
    | cons n ns => simp_all

theorem map_id_zipWith (vs : List Var) :
    ∀ ns : List String, vs.length = ns.length →
      (List.zipWith (fun (v : Var) (n : String) => { v with name := n }) vs ns).map
        Var.id = vs.map Var.id := by
  induction vs with
  | nil => intro ns h; cases ns <;> simp_all
  | cons v vs ih =>
    intro ns h
    cases ns with
    | nil => simp at h
    | cons n ns => simp_all

theorem lookup_zip_id {x : Nat} {w : Var} (vs : List Var) :
    ∀ ns : List String,
      List.lookup x
          (List.zipWith (fun v rv => (v.id, rv)) vs
            (List.zipWith (fun (v : Var) (n : String) => { v with name := n }) vs ns)) =
        some w →
      w.id = x := by
  induction vs with
  | nil => intro ns h; simp [List.lookup] at h
  | cons v vs ih =>
    intro ns h
    cases ns with
    | nil => simp [List.lookup] at h
    | cons n ns =>
      simp only [List.zipWith] at h
      cases hx : (x == v.id) with
      | true =>
        simp [List.lookup, hx] at h
        have : x = v.id := eq_of_beq hx
        rw [← h]
        exact this.symm
      | false =>
        simp [List.lookup, hx] at h
        exact ih ns h

theorem lookup_zip_mem {lv : Var} (vs : List Var) :
    ∀ ns : List String, lv ∈ vs → vs.length = ns.length →
      ∃ w, List.lookup lv.id
          (List.zipWith (fun v rv => (v.id, rv)) vs
            (List.zipWith (fun (v : Var) (n : String) => { v with name := n }) vs ns)) =
        some w := by
  induction vs with
  | nil => intro ns h; cases h
  | cons v vs ih =>
    intro ns hmem hlen
    cases ns with
    | nil => simp at hlen
    | cons n ns =>
      simp only [List.zipWith]
      cases hx : (lv.id == v.id) with
      | true => exact ⟨{ v with name := n }, by simp [List.lookup, hx]⟩
      | false =>
        rcases List.mem_cons.mp hmem with rfl | hmem2
        · simp at hx
        · have := ih ns hmem2 (by simpa using hlen)
          simpa [List.lookup, hx] using this

theorem lossBoundVars_length (loss : Function) :
    (lossBoundVars loss).length = (block1 loss).bindings.length := by
  simp [lossBoundVars]

theorem finalNames_length (backbone loss : Function) :
    (finalNames backbone loss).length = (block1 loss).bindings.length := by
  simp [finalNames, disambiguate_length]

theorem rewriteVar_id_of_mem (backbone loss : Function) (k : Nat) (lv : Var)
    (h : lv ∈ lossBoundVars loss) : (rewriteVar backbone loss k lv).id = lv.id := by
  have hlen : (lossBoundVars loss).length = (finalNames backbone loss).length := by
    rw [lossBoundVars_length, finalNames_length]
  obtain ⟨w, hw⟩ := lookup_zip_mem (lossBoundVars loss) (finalNames backbone loss) h hlen
  have hid := lookup_zip_id (lossBoundVars loss) (finalNames backbone loss) hw
  have hw2 : List.lookup lv.id (renPairs backbone loss) = some w := by
    unfold renPairs renamedVars
    exact hw
  unfold rewriteVar
  rw [hw2]
  exact hid

theorem splice_ok_elim (backbone loss : Function) (k : Nat) (f : Function)
    (h : splice backbone loss k = .ok f) :
    backbone.blocks.length = 1 ∧ loss.blocks.length = 1 ∧
      (∃ lv, scalarSingleRet loss.ret = some lv) ∧
      k ≤ (retList backbone.ret).length ∧ k ≤ loss.params.length ∧
      f = mkSplice backbone loss k := by
  unfold splice at h
  by_cases h1 : backbone.blocks.length = 1
  · by_cases h2 : loss.blocks.length = 1
    · simp only [h1, h2, ne_eq, not_true_eq_false, if_false] at h
      cases hs : scalarSingleRet loss.ret with
      | none => rw [hs] at h; cases h
      | some lv =>
        rw [hs] at h
        by_cases h3 : (retList backbone.ret).length < k
        · simp [h3] at h
        · by_cases h4 : loss.params.length < k
          · simp [h3, h4] at h
          · simp [h3, h4] at h
            exact ⟨h1, h2, ⟨lv, rfl⟩, Nat.le_of_not_lt h3, Nat.le_of_not_lt h4, h.symm⟩
    · simp [h1, h2] at h
  · simp [h1] at h

theorem lookup_append_some {α : Type} [BEq α] {l1 l2 : List (α × Function)} {k : α}
    {v : Function} (h : List.lookup k l1 = some v) :
    List.lookup k (l1 ++ l2) = some v := by
  induction l1 with
  | nil => simp [List.lookup] at h
  | cons hd tl ih =>
    obtain ⟨k0, v0⟩ := hd
    rw [List.cons_append]
    cases hk : k == k0 <;> simp [List.lookup, hk] at h ⊢ <;> simp_all

theorem lookup_append_none {α : Type} [BEq α] {l1 l2 : List (α × Function)} {k : α}
    (h : List.lookup k l1 = none) :
    List.lookup k (l1 ++ l2) = List.lookup k l2 := by
  induction l1 with
  | nil => simp
  | cons hd tl ih =>
    obtain ⟨k0, v0⟩ := hd
    rw [List.cons_append]
    cases hk : k == k0 <;> simp [List.lookup, hk] at h ⊢ <;> simp_all

theorem lookup_eq_none_of_not_mem_keys {l : List (String × Function)} {k : String}
    (h : k ∉ l.map Prod.fst) : List.lookup k l = none := by
  induction l with
  | nil => simp [List.lookup]
  | cons hd tl ih =>
    obtain ⟨k0, v0⟩ := hd
    simp only [List.map_cons, List.mem_cons, not_or] at h
    have hk : (k == k0) = false := beq_eq_false_iff_ne.mpr h.1
    simp only [List.lookup, hk]
    exact ih h.2

theorem appendLoss_ok_elim (func_name : String) (loss : Function) (k : Nat)
    (new_func_name : Option String) (mod mod2 : Module)
    (h : appendLoss func_name loss k new_func_name mod = .ok mod2) :
    ∃ backbone f,
      List.lookup func_name mod = some backbone ∧
      splice backbone loss k = .ok f ∧
      (new_func_name.getD (func_name ++ "_loss")) ∉ mod.map Prod.fst ∧
      mod2 = mod ++ [(new_func_name.getD (func_name ++ "_loss"), f)] := by
  unfold appendLoss at h
  split at h
  · cases h
  · split at h
    · cases h
    · split at h
      · cases h
      · rw [Except.ok.injEq] at h
        exact ⟨_, _, by assumption, by assumption, by assumption, h.symm⟩

theorem map_bvar_name (l : List Binding) :
    l.map (fun b => b.var.name) = (l.map Binding.var).map Var.name := by
  simp [List.map_map]

theorem map_bvar_id (l : List Binding) :
    l.map (fun b => b.var.id) = (l.map Binding.var).map Var.id := by
  simp [List.map_map]

/-- Claim C1: for every valid splice input, the produced function has
`len(backbone.params) + (len(loss.params) - k)` parameters, ordered as
backbone's original parameters followed by loss's extra (non-prediction)
parameters in loss's original order, with name and type/shape annotation
preserved. -/
theorem splice_param_arity (backbone loss : Function) (k : Nat) (f : Function)
    (h : splice backbone loss k = .ok f) :
    f.params.length = backbone.params.length + (loss.params.length - k) ∧
    f.params.take backbone.params.length = backbone.params ∧
    (f.params.drop backbone.params.length).map (fun v => (v.name, v.ann)) =
      (loss.params.drop k).map (fun v => (v.name, v.ann)) := by
  obtain ⟨h1, h2, hs, h3, h4, rfl⟩ := splice_ok_elim backbone loss k f h
  refine ⟨?_, ?_, ?_⟩
  · simp [mkSplice, newParams]
  · exact List.take_left _ _
  · show ((backbone.params ++ newParams backbone loss k).drop
        backbone.params.length).map _ = _
    rw [List.drop_left]
    rw [newParams, List.map_map]
    rfl

/-- Witness for C1 at the docstring example. -/
theorem splice_param_arity_witness :
    splice exPredict exLoss 1 = Except.ok exResult ∧
    (exResult.params.length = exPredict.params.length + (exLoss.params.length - 1) ∧
     exResult.params.take exPredict.params.length = exPredict.params ∧
     (exResult.params.drop exPredict.params.length).map (fun v => (v.name, v.ann)) =
       (exLoss.params.drop 1).map (fun v => (v.name, v.ann))) :=
  ⟨rfl, splice_param_arity exPredict exLoss 1 exResult rfl⟩

/-- Claim C2: the produced function returns the tuple of the loss scalar
followed by the backbone's carried outputs `k..end` in order, and when there
are zero carried outputs the return expression is a single Var, not a
1-tuple; the loss value keeps the identity of loss's returned bound
variable. -/
theorem splice_ret_structure (backbone loss : Function) (k : Nat) (f : Function) (lv : Var)
    (h : splice backbone loss k = .ok f) (hret : loss.ret = .single lv) :
    lv.ann.shape = [] ∧
    ∃ v : Var,
      ((retList backbone.ret).drop k = [] → f.ret = .single v) ∧
      (∀ c cs, (retList backbone.ret).drop k = c :: cs → f.ret = .tuple (v :: c :: cs)) ∧
      (lv ∈ lossBoundVars loss → v.id = lv.id) := by
  obtain ⟨h1, h2, ⟨lv0, hs⟩, h3, h4, rfl⟩ := splice_ok_elim backbone loss k f h
  rw [hret] at hs
  unfold scalarSingleRet at hs
  have hscal : lv.ann.shape = [] := by
    by_cases hsh : lv.ann.shape = []
    · exact hsh
    · simp [hsh] at hs
  refine ⟨hscal, lossValVar backbone loss k, ?_, ?_, ?_⟩
  · intro hd
    show (mkSplice backbone loss k).ret = _
    simp [mkSplice, carried, hd]
  · intro c cs hd
    show (mkSplice backbone loss k).ret = _
    simp [mkSplice, carried, hd]
  · intro hmem
    unfold lossValVar
    rw [hret]
    exact rewriteVar_id_of_mem backbone loss k lv hmem

/-- Witness for C2 at the docstring example, exercising the degenerate
zero-carried-outputs case. -/
theorem splice_ret_structure_witness :
    exGv.ann.shape = [] ∧
    ∃ v : Var,
      ((retList exPredict.ret).drop 1 = [] → exResult.ret = .single v) ∧
      (∀ c cs, (retList exPredict.ret).drop 1 = c :: cs →
        exResult.ret = .tuple (v :: c :: cs)) ∧
      (exGv ∈ lossBoundVars exLoss → v.id = exGv.id) :=
  splice_ret_structure exPredict exLoss 1 exResult exGv rfl rfl

/-- Claim C3: a splice input violating a structural precondition — loss
returning something other than a single scalar Var, a backbone or loss block
count other than one, or an arity mismatch between loss's parameters and the
available targets — makes `splice` fail with a structural validation error
and produce no result function. -/
theorem splice_rejects_malformed (backbone loss : Function) (k : Nat)
    (h : backbone.blocks.length ≠ 1 ∨ loss.blocks.length ≠ 1 ∨
      scalarSingleRet loss.ret = none ∨ loss.params.length < k) :
    ∃ e, splice backbone loss k = .error e := by
  cases hsp : splice backbone loss k with
  | error e => exact ⟨e, rfl⟩
  | ok f =>
    exfalso
    obtain ⟨h1, h2, ⟨lv, hs⟩, h3, h4, _⟩ := splice_ok_elim backbone loss k f hsp
    rcases h with h | h | h | h
    · exact h h1
    · exact h h2
    · rw [h] at hs; cases hs
    · omega

/-- Witness for C3: a loss function returning a rank-1 Var is rejected. -/
theorem splice_rejects_malformed_witness :
    ∃ e, splice exPredict exBadLoss 1 = Except.error e :=
  splice_rejects_malformed exPredict exBadLoss 1 (Or.inr (Or.inr (Or.inl rfl)))

/-- Claim C4: `appendLoss` is pure with respect to its inputs — the output
module is the input module with exactly one new function appended at the end,
and every existing entry (the backbone and loss among them) is looked up
unchanged. -/
theorem appendLoss_pure (func_name : String) (loss : Function) (k : Nat)
    (new_func_name : Option String) (mod mod2 : Module)
    (h : appendLoss func_name loss k new_func_name mod = .ok mod2) :
    ∃ nm f, mod2 = mod ++ [(nm, f)] ∧
      ∀ g fn0, List.lookup g mod = some fn0 → List.lookup g mod2 = some fn0 := by
  obtain ⟨bb, f, hl, hsp, hc, rfl⟩ :=
    appendLoss_ok_elim func_name loss k new_func_name mod mod2 h
  exact ⟨_, f, rfl, fun g fn0 hg => lookup_append_some hg⟩

/-- Witness for C4 at the docstring example with the default result name. -/
theorem appendLoss_pure_witness :
    ∃ nm f, exModule ++ [("predict_loss", exResult)] = exModule ++ [(nm, f)] ∧
      ∀ g fn0, List.lookup g exModule = some fn0 →
        List.lookup g (exModule ++ [("predict_loss", exResult)]) = some fn0 :=
  appendLoss_pure "predict" exLoss 1 none exModule
    (exModule ++ [("predict_loss", exResult)]) rfl

/-- Claim C5: splicing twice with two distinct fresh names produces two
functions coexisting in the module; splicing twice with the same name
succeeds the first time and fails the second time with a name-collision
error (an error result, leaving no modified module). -/
theorem appendLoss_distinct_and_collision (func_name : String) (loss : Function) (k : Nat)
    (n1 n2 : String) (mod mod1 : Module)
    (h1 : appendLoss func_name loss k (some n1) mod = .ok mod1)
    (h2 : n2 ∉ mod1.map Prod.fst) :
    (∃ mod2 f1 f2,
      appendLoss func_name loss k (some n2) mod1 = .ok mod2 ∧
      List.lookup n1 mod2 = some f1 ∧ List.lookup n2 mod2 = some f2) ∧
    appendLoss func_name loss k (some n1) mod1 = .error (.nameCollision n1) := by
  obtain ⟨bb, f, hl, hsp, hc1, rfl⟩ :=
    appendLoss_ok_elim func_name loss k (some n1) mod mod1 h1
  simp only [Option.getD_some] at hc1 h2 ⊢
  have hl1 : List.lookup func_name (mod ++ [(n1, f)]) = some bb := lookup_append_some hl
  have hn1mem : n1 ∈ (mod ++ [(n1, f)]).map Prod.fst := by simp
  have hlookn1 : List.lookup n1 (mod ++ [(n1, f)]) = some f := by
    rw [lookup_append_none (lookup_eq_none_of_not_mem_keys hc1)]
    simp [List.lookup]
  constructor
  · refine ⟨(mod ++ [(n1, f)]) ++ [(n2, f)], f, f, ?_, ?_, ?_⟩
    · unfold appendLoss
      simp only [hl1, hsp, Option.getD_some]
      rw [if_neg h2]
    · exact lookup_append_some hlookn1
    · rw [lookup_append_none (lookup_eq_none_of_not_mem_keys h2)]
      simp [List.lookup]
  · unfold appendLoss
    simp only [hl1, hsp, Option.getD_some]
    rw [if_pos hn1mem]

/-- Witness for C5: two splices of the example module under the names `fa`
and `fb`, and the collision on reusing `fa`. -/
theorem appendLoss_distinct_and_collision_witness :
    (∃ mod2 f1 f2,
      appendLoss "predict" exLoss 1 (some "fb") (exModule ++ [("fa", exResult)]) =
        Except.ok mod2 ∧
      List.lookup "fa" mod2 = some f1 ∧ List.lookup "fb" mod2 = some f2) ∧
    appendLoss "predict" exLoss 1 (some "fa") (exModule ++ [("fa", exResult)]) =
      Except.error (.nameCollision "fa") :=
  appendLoss_distinct_and_collision "predict" exLoss 1 "fa" "fb" exModule
    (exModule ++ [("fa", exResult)]) rfl (by decide)

/-- Claim C6: inside the single merged dataflow block every bound variable
name is unique (given backbone's own bound names were unique); the backbone's
bindings are kept verbatim, in order, as the leading bindings; loss's
bindings follow with their variable identities preserved by the renaming
substitution; and when no loss name collides with a backbone name (and
loss's names are themselves distinct) the loss names are kept unchanged. -/
theorem splice_merged_block_names (backbone loss : Function) (k : Nat) (f : Function)
    (h : splice backbone loss k = .ok f)
    (hnodup : ((block1 backbone).bindings.map fun b => b.var.name).Nodup) :
    ((block1 f).bindings.map fun b => b.var.name).Nodup ∧
    (block1 f).bindings.take (block1 backbone).bindings.length =
      (block1 backbone).bindings ∧
    ((block1 f).bindings.drop (block1 backbone).bindings.length).map
        (fun b => b.var.id) =
      (block1 loss).bindings.map (fun b => b.var.id) ∧
    ((∀ s ∈ (block1 loss).bindings.map fun b => b.var.name,
        s ∉ (block1 backbone).bindings.map fun b => b.var.name) →
      ((block1 loss).bindings.map fun b => b.var.name).Nodup →
      ((block1 f).bindings.drop (block1 backbone).bindings.length).map
          (fun b => b.var.name) =
        (block1 loss).bindings.map fun b => b.var.name) := by
  obtain ⟨h1, h2, hs, h3, h4, rfl⟩ := splice_ok_elim backbone loss k f h
  have hlen1 : (lossBoundVars loss).length = (finalNames backbone loss).length := by
    rw [lossBoundVars_length, finalNames_length]
  have hlen2 : (block1 loss).bindings.length = (renamedVars backbone loss).length := by
    simp [renamedVars, ← hlen1, lossBoundVars_length]
  have hmapvar : (newLossBindings backbone loss k).map Binding.var =
      renamedVars backbone loss :=
    map_var_zipWith _ _ _ hlen2
  have hmapname : (renamedVars backbone loss).map Var.name = finalNames backbone loss :=
    map_name_zipWith _ _ hlen1
  have hmapid : (renamedVars backbone loss).map Var.id =
      (lossBoundVars loss).map Var.id :=
    map_id_zipWith _ _ hlen1
  have hblock : (block1 (mkSplice backbone loss k)).bindings =
      (block1 backbone).bindings ++ newLossBindings backbone loss k := rfl
  refine ⟨?_, ?_, ?_, ?_⟩
  · rw [hblock, List.map_append, map_bvar_name (newLossBindings backbone loss k),
      hmapvar, hmapname]
    exact disambiguate_nodup _ _ hnodup
  · rw [hblock]
    exact List.take_left _ _
  · rw [hblock, List.drop_left, map_bvar_id, hmapvar, hmapid]
    exact (map_bvar_id _).symm
  · intro hdisj hnd
    rw [hblock, List.drop_left, map_bvar_name, hmapvar, hmapname]
    exact disambiguate_eq_of_disjoint _ _ hdisj hnd

/-- Witness for C6 at the docstring example. -/
theorem splice_merged_block_names_witness :
    ((block1 exResult).bindings.map fun b => b.var.name).Nodup ∧
    (block1 exResult).bindings.take (block1 exPredict).bindings.length =
      (block1 exPredict).bindings ∧
    ((block1 exResult).bindings.drop (block1 exPredict).bindings.length).map
        (fun b => b.var.id) =
      (block1 exLoss).bindings.map (fun b => b.var.id) ∧
    ((∀ s ∈ (block1 exLoss).bindings.map fun b => b.var.name,
        s ∉ (block1 exPredict).bindings.map fun b => b.var.name) →
      ((block1 exLoss).bindings.map fun b => b.var.name).Nodup →
      ((block1 exResult).bindings.drop (block1 exPredict).bindings.length).map
          (fun b => b.var.name) =
        (block1 exLoss).bindings.map fun b => b.var.name) :=
  splice_merged_block_names exPredict exLoss 1 exResult rfl (by decide)

end Relax

namespace TeGrad

/-- Claim C7: registering twice under the same `te_grad_name` with two
different gradient functions succeeds both times, and afterwards a lookup of
the namespaced key finds the second handler (last write wins). -/
theorem register_te_gradient_overwrite (n f1 f2 : String) (reg reg1 reg2 : Registry)
    (h1 : register_te_gradient n (some f1) reg = .inl (f1, reg1))
    (h2 : register_te_gradient n (some f2) reg1 = .inl (f2, reg2)) :
    List.lookup ("tvm.relax.te_grad._register." ++ n) reg2 = some ⟨n, f2⟩ := by
  have e2 := Sum.inl.inj
    (show Sum.inl (register n f2 reg1) =
        Sum.inl (α := String × Registry)
          (β := String → Registry → String × Registry) (f2, reg2) from h2)
  have hr : reg2 = (register n f2 reg1).2 := by rw [e2]
  rw [hr]
  simp [register, register_func, List.lookup]

/-- Witness for C7 at a concrete name and two concrete gradient functions. -/
theorem register_te_gradient_overwrite_witness :
    List.lookup ("tvm.relax.te_grad._register." ++ "g")
        [("tvm.relax.te_grad._register." ++ "g", ⟨"g", "b"⟩),
         ("tvm.relax.te_grad._register." ++ "g", ⟨"g", "a"⟩)] =
      some (⟨"g", "b"⟩ : Handler) :=
  register_te_gradient_overwrite "g" "a" "b" []
    [("tvm.relax.te_grad._register." ++ "g", ⟨"g", "a"⟩)]
    [("tvm.relax.te_grad._register." ++ "g", ⟨"g", "b"⟩),
     ("tvm.relax.te_grad._register." ++ "g", ⟨"g", "a"⟩)] rfl rfl

/-- Claim C8: the stored handler, invoked with an original Var, a
`call_tir_with_grad` call, an output-gradient Var and a block-building
context, calls the registered function through the context's `emit_te` with
the output gradient first, the forward call's packed argument list unpacked
after it, the call's `te_grad_kwargs` forwarded verbatim, and the registered
name as primfunc hint, and returns the Var the context binds to the emitted
result. -/
theorem handler_emits (n f : String) (reg : Registry) (hd : Handler)
    (hlook : List.lookup ("tvm.relax.te_grad._register." ++ n)
        ((register n f reg).2) = some hd)
    (orig_var output_grad : Nat) (call : Call) (fs : List Nat) (ctx : BBState)
    (hargs : call.args.getD 1 (.tupleArg []) = .tupleArg fs) :
    runHandler hd orig_var call output_grad ctx =
      (ctx.nextVarId,
        { emitted := ctx.emitted ++
            [⟨ctx.nextVarId, f, output_grad :: fs, call.attrs.te_grad_kwargs, n⟩]
          nextVarId := ctx.nextVarId + 1 }) := by
  have hhd : hd = ⟨n, f⟩ := by
    simp only [register, register_func, List.lookup, beq_self_eq_true,
      Option.some.injEq] at hlook
    exact hlook.symm
  subst hhd
  simp only [runHandler, handler]
  rw [hargs]
  simp [emit_te, unpackArg]

/-- Witness for C8 at a concrete registration and call. -/
theorem handler_emits_witness :
    runHandler ⟨"mygrad", "fgrad"⟩ 0 exCall 3 ⟨[], 5⟩ =
      (5, { emitted := [⟨5, "fgrad", [3, 1, 2], [("axis", "0")], "mygrad"⟩]
            nextVarId := 6 }) :=
  handler_emits "mygrad" "fgrad" [] ⟨"mygrad", "fgrad"⟩ rfl 0 3 exCall [1, 2]
    ⟨[], 5⟩ rfl

/-- Claim C9: both usage forms of `register_te_gradient` return the original
callable — the direct call returns it as the first component, and the
decorator form applied to a callable returns that callable. -/
theorem register_te_gradient_identity (n f : String) (reg : Registry) :
    register_te_gradient n (some f) reg =
      .inl (f, register_func ("tvm.relax.te_grad._register." ++ n) ⟨n, f⟩ reg) ∧
    ∀ g, register_te_gradient n none reg = .inr g → (g f reg).1 = f := by
  refine ⟨rfl, ?_⟩
  intro g hg
  obtain rfl := Sum.inr.inj
    (show Sum.inr (α := String × Registry) (register n) = Sum.inr g from hg)
  rfl

/-- Witness for C9 at a concrete name and callable, discharging the decorator
form on the closure `register_te_gradient` actually returns. -/
theorem register_te_gradient_identity_witness :
    register_te_gradient "g1" (some "fn1") [] =
      .inl ("fn1",
        register_func ("tvm.relax.te_grad._register." ++ "g1") ⟨"g1", "fn1"⟩ []) ∧
    (register "g1" "fn1" []).1 = "fn1" :=
  ⟨(register_te_gradient_identity "g1" "fn1" []).1,
   (register_te_gradient_identity "g1" "fn1" []).2 (register "g1") rfl⟩

/-- Claim C10: the handler is stored under the namespaced key
`"tvm.relax.te_grad._register." ++ te_grad_name`, never under the bare name:
after registering, the namespaced key resolves to the handler while a bare
name that resolved to nothing before still resolves to nothing. -/
theorem register_key_namespaced (n f : String) (reg : Registry)
    (h : List.lookup n reg = none) :
    List.lookup ("tvm.relax.te_grad._register." ++ n) ((register n f reg).2) =
      some ⟨n, f⟩ ∧
    List.lookup n ((register n f reg).2) = none := by
  constructor
  · simp [register, register_func, List.lookup]
  · have hne : n ≠ "tvm.relax.te_grad._register." ++ n := by
      intro he
      have hlen := congrArg String.length he
      rw [String.length_append] at hlen
      have h28 : ("tvm.relax.te_grad._register." : String).length = 28 := by decide
      omega
    have hbe : (n == "tvm.relax.te_grad._register." ++ n) = false :=
      beq_eq_false_iff_ne.mpr hne
    simp [register, register_func, List.lookup, hbe, h]

/-- Witness for C10 at a concrete name on the empty registry. -/
theorem register_key_namespaced_witness :
    List.lookup ("tvm.relax.te_grad._register." ++ "g1") ((register "g1" "fn1" []).2) =
      some ⟨"g1", "fn1"⟩ ∧
    List.lookup "g1" ((register "g1" "fn1" []).2) = none :=
  register_key_namespaced "g1" "fn1" [] rfl

end TeGrad
